import Mathlib

/-!
Verification development for the tax-form annotation utility module.

The TypeScript source (`src/utils.ts` together with the enum and interface
declarations in `src/types`) is shallowly embedded below.  JSON-like runtime
values are modelled by the inductive type `JSValue`; the JavaScript value
`undefined` is modelled by `none` at type `Option JSValue`.  JavaScript
numbers are modelled as rationals (`ℚ`); floating-point rounding, `NaN`
(modelled as `none` after numeric coercion) and `Infinity` are outside the
model, as are exotic numeric string forms (hex, exponents) accepted by the
`Number` coercion.  A thrown JavaScript exception is modelled as
`Except.error` with the message text; the concrete message wording is not
significant.  Regular-expression testing (`new RegExp(p).test(s)`) is an
external capability of the JavaScript runtime and is passed in as an explicit
function parameter `rx : String → String → Bool` to the definitions that
need it; all theorems quantify over it.

String primitives (`slice`, `split`, `startsWith`, `replace(/\D/g, "")`) are
modelled by structurally recursive operations on the character lists
underlying Lean strings, mirroring their JavaScript semantics on the ASCII
inputs the module manipulates.
-/

/-! ## Enumerations (from `src/types/enums.ts`) -/

/-- Semantic data types renderable in form fields. -/
inductive FieldDataType where
  | STRING | CURRENCY | NUMBER | CHECKBOX | DATE | SSN | EIN | PHONE | PERCENTAGE
deriving DecidableEq

/-- Validation rule kinds. -/
inductive ValidationType where
  | REQUIRED | MIN_LENGTH | MAX_LENGTH | PATTERN | RANGE | CUSTOM | CROSS_FIELD | LUHN
deriving DecidableEq

/-- Severity levels for validation errors. -/
inductive ValidationSeverity where
  | ERROR | WARNING | INFO
deriving DecidableEq

/-- Comparison operators for conditional rendering logic. -/
inductive ComparisonOperator where
  | EQUALS | NOT_EQUALS | GREATER_THAN | GREATER_THAN_OR_EQUALS
  | LESS_THAN | LESS_THAN_OR_EQUALS | CONTAINS | NOT_CONTAINS
  | STARTS_WITH | ENDS_WITH | IS_EMPTY | IS_NOT_EMPTY
  | IN | NOT_IN | MATCHES_PATTERN
deriving DecidableEq

/-- Logical operators combining multiple conditions. -/
inductive LogicalOperator where
  | AND | OR | NOT | XOR
deriving DecidableEq

/-- Actions taken when a condition is met. -/
inductive ConditionalAction where
  | SHOW | HIDE | ENABLE | DISABLE | SET_VALUE | CLEAR_VALUE | REQUIRE | OPTIONAL | APPLY_STYLE
deriving DecidableEq

/-- Currency format options. -/
inductive CurrencyFormat where
  | USD | USD_NO_SYMBOL | USD_WITH_CENTS | USD_WHOLE
deriving DecidableEq

/-! ## JSON-like runtime values

A JavaScript array may carry named properties in addition to its elements;
`arr` therefore keeps an element list (with `none` for holes, which read as
`undefined`) and an association list of named properties.  Plain objects are
association lists with unique keys (writes through `insertProp` below replace
in place, as JavaScript property assignment does). -/

inductive JSValue where
  | null
  | bool (b : Bool)
  | num (q : ℚ)
  | str (s : String)
  | arr (elems : List (Option JSValue)) (props : List (String × JSValue))
  | obj (fields : List (String × JSValue))

/-- JavaScript truthiness.  (`NaN` is outside the rational model; `-0 = 0`.) -/
def jsTruthy : JSValue → Bool
  | .null => false
  | .bool b => b
  | .num q => !(q.num == 0)
  | .str s => !(s.toList.isEmpty)
  | .arr _ _ => true
  | .obj _ => true

/-- `typeof v === "object"`.  (`typeof null` is `"object"` in JavaScript.) -/
def isObjectType : JSValue → Bool
  | .null => true
  | .arr _ _ => true
  | .obj _ => true
  | _ => false

/-- First-match association-list lookup (JavaScript own-property read). -/
def lookupField : List (String × JSValue) → String → Option JSValue
  | [], _ => none
  | (k, v) :: rest, key => if k = key then some v else lookupField rest key

/-- Property write on an association list: replaces an existing key in place,
otherwise appends (JavaScript property-assignment key ordering). -/
def insertProp : List (String × JSValue) → String → JSValue → List (String × JSValue)
  | [], key, v => [(key, v)]
  | (k, w) :: rest, key, v =>
    if k = key then (k, v) :: rest else (k, w) :: insertProp rest key v

/-- Digit-string to number, `parseInt(s, 10)` on an all-digit string. -/
def digitsToNat (l : List Char) : Nat :=
  l.foldl (fun acc c => acc * 10 + (c.toNat - 48)) 0

/-- The decimal digit character for `d < 10`. -/
def digitChar (d : Nat) : Char := Char.ofNat (48 + d)

/-- Decimal digits of `n`, most significant first, accumulator style with
explicit fuel (`n + 1` steps always suffice). -/
def natToDigits : Nat → Nat → List Char → List Char
  | 0, _, acc => acc
  | fuel + 1, n, acc =>
    if n < 10 then digitChar n :: acc
    else natToDigits fuel (n / 10) (digitChar (n % 10) :: acc)

/-- Decimal rendering of a natural number (JavaScript number-to-string for
nonnegative integers). -/
def natToString (n : Nat) : String := String.mk (natToDigits (n + 1) n [])

/-- Parses an all-digit string as a natural number, `none` otherwise. -/
def strToNat? (s : String) : Option Nat :=
  if !s.toList.isEmpty && s.toList.all Char.isDigit then some (digitsToNat s.toList)
  else none

/-- Property read `v[key]` for object-typed values.  On arrays, a canonical
numeric key reads the element (holes and out-of-range reads give
`undefined`), `"length"` reads the length, and any other key reads the named
properties.  Property reads on primitives (reachable only in `setJSONPath`'s
walk) yield `undefined`; the character/`length` properties of primitive
strings are outside the model, which is observationally harmless there (see
`setSegments`). -/
def getProp : JSValue → String → Option JSValue
  | .obj fields, key => lookupField fields key
  | .arr elems props, key =>
    if key = "length" then some (.num (elems.length : ℚ))
    else
      match strToNat? key with
      | some i => if natToString i = key then (elems.get? i).getD none else lookupField props key
      | none => lookupField props key
  | _, _ => none

/-! ## Path engine (`resolveJSONPath` / `setJSONPath`) -/

/-- `\w` character class of the segment regular expressions. -/
def isWordChar (c : Char) : Bool := c.isAlphanum || c = '_'

/-- Parses a segment against `^(\w+)\[(\d+|\*)\]$`: returns the property name
together with `none` for a `[*]` wildcard or `some i` for a numeric index.
Returns `none` when the segment does not match (it is then a plain property
name). -/
def parseArraySegment (seg : String) : Option (String × Option Nat) :=
  match seg.toList.span isWordChar with
  | (name, rest) =>
    if name.isEmpty then none
    else
      match rest with
      | '[' :: t =>
        match t.reverse with
        | ']' :: midRev =>
          let mid := midRev.reverse
          if mid = ['*'] then some (String.mk name, none)
          else if !mid.isEmpty && mid.all Char.isDigit then
            some (String.mk name, some (digitsToNat mid))
          else none
        | _ => none
      | _ => none

/-- `s.split(".")` on the character list: a dot closes the current part. -/
def splitDots : List Char → List (List Char)
  | [] => [[]]
  | c :: rest =>
    if c = '.' then [] :: splitDots rest
    else
      match splitDots rest with
      | p :: ps => (c :: p) :: ps
      | [] => [[c]]

/-- `path.slice(1).split(".").filter(s => s.length > 0)`. -/
def pathSegments (path : String) : List String :=
  ((splitDots (path.toList.drop 1)).map String.mk).filter (fun s => s.length > 0)

/-- `path.startsWith("$")`. -/
def startsWithRoot (path : String) : Bool :=
  match path.toList with
  | '$' :: _ => true
  | _ => false

/-- The segment walk of `resolveJSONPath`.  The source's early `return`s on a
`null`/`undefined` current value are modelled by propagating `none`, which is
observationally identical because no later segment can act on an absent
value. -/
def resolveSegments : List String → Option JSValue → Option JSValue
  | [], cur => cur
  | _ :: _, none => none
  | _ :: _, some .null => none
  | seg :: rest, some cur =>
    match parseArraySegment seg with
    | some (propName, idx) =>
      if isObjectType cur then
        match getProp cur propName with
        | some (.arr elems props) =>
          match idx with
          | none => some (.arr elems props)
          | some i => resolveSegments rest ((elems.get? i).getD none)
        | _ => none
      else none
    | none =>
      if isObjectType cur then resolveSegments rest (getProp cur seg)
      else none

/-- Resolves a JSONPath expression against a data value.  Throws exactly when
the path does not start with `$`. -/
def resolveJSONPath (path : String) (data : Option JSValue) : Except String (Option JSValue) :=
  if startsWithRoot path then .ok (resolveSegments (pathSegments path) data)
  else .error ("Invalid JSONPath: must start with $. Got: " ++ path)

/-- The restricted segment match of `setJSONPath`, `^(\w+)\[(\d+)\]$` — no
wildcard alternative, so `name[*]` falls through to plain-property handling. -/
def parseSetSegment (seg : String) : Option (String × Nat) :=
  match parseArraySegment seg with
  | some (name, some i) => some (name, i)
  | _ => none

/-- Grows `elems` with holes so that index `i` exists, then sets it
(JavaScript element assignment beyond the current length). -/
def setElem (elems : List (Option JSValue)) (i : Nat) (v : JSValue) : List (Option JSValue) :=
  match elems, i with
  | [], 0 => [some v]
  | [], n + 1 => none :: setElem [] n v
  | _ :: rest, 0 => some v :: rest
  | e :: rest, n + 1 => e :: setElem rest n v

/-- Truncates or hole-extends an element list to length `n`
(array `length` assignment). -/
def resizeElems (elems : List (Option JSValue)) (n : Nat) : List (Option JSValue) :=
  match n, elems with
  | 0, _ => []
  | m + 1, [] => none :: resizeElems [] m
  | m + 1, e :: rest => e :: resizeElems rest m

/-- Property assignment `cur[key] = v`.  Assigning onto `null` or a primitive
throws in strict-mode JavaScript.  On arrays a canonical numeric key writes
the element, `"length"` resizes (JavaScript would numerically coerce other
length values first; that coercion is outside the model), and other keys
write named properties. -/
def setProp (cur : JSValue) (key : String) (v : JSValue) : Except String JSValue :=
  match cur with
  | .obj fields => .ok (.obj (insertProp fields key v))
  | .arr elems props =>
    if key = "length" then
      match v with
      | .num q => if q.den = 1 ∧ 0 ≤ q.num then .ok (.arr (resizeElems elems q.num.toNat) props)
                  else .error "RangeError: Invalid array length"
      | _ => .error "RangeError: Invalid array length"
    else
      match strToNat? key with
      | some i => if natToString i = key then .ok (.arr (setElem elems i v) props)
                  else .ok (.arr elems (insertProp props key v))
      | none => .ok (.arr elems (insertProp props key v))
  | .null => .error "TypeError: Cannot set properties of null"
  | _ => .error "TypeError: Cannot create property on a primitive value"

/-- The walk of `setJSONPath`: all segments except the last navigate (with
materialization of falsy/missing intermediates as `{}` or `[]`), and the
final segment is assigned RAW — the source never applies the array regular
expression to the last segment, so `current[lastSegment] = value` uses the
whole segment text as the property key.  With no segments at all,
`segments[segments.length - 1]` is `undefined` and JavaScript coerces the
key to the string `"undefined"`.

Mutation is modelled by rebuilding: each recursive step writes the updated
child back through `setProp`.  In JavaScript a walk that reaches a truthy
primitive keeps reading (string characters, `length`) until an assignment
throws, and every completed walk ends in an assignment onto that primitive
chain; the model therefore reports the error at the step where the primitive
is first written back, which is observationally the same thrown outcome. -/
def setSegments : List String → JSValue → JSValue → Except String JSValue
  | [], cur, value => setProp cur "undefined" value
  | [last], cur, value => setProp cur last value
  | seg :: seg2 :: rest, cur, value =>
    match cur with
    | .null => .error "TypeError: Cannot read properties of null"
    | _ =>
      match parseSetSegment seg with
      | some (propName, index) =>
        let container := match getProp cur propName with
          | some v => if jsTruthy v then v else .arr [] []
          | none => .arr [] []
        let key := natToString index
        let child := match getProp container key with
          | some v => if jsTruthy v then v else .obj []
          | none => .obj []
        match setSegments (seg2 :: rest) child value with
        | .error e => .error e
        | .ok child2 =>
          match setProp container key child2 with
          | .error e => .error e
          | .ok container2 => setProp cur propName container2
      | none =>
        let child := match getProp cur seg with
          | some v => if jsTruthy v then v else .obj []
          | none => .obj []
        match setSegments (seg2 :: rest) child value with
        | .error e => .error e
        | .ok child2 => setProp cur seg child2

/-- Sets a value at a JSONPath location.  Throws exactly when the path does
not start with `$` (plus the strict-mode type errors of the walk itself). -/
def setJSONPath (path : String) (data : JSValue) (value : JSValue) : Except String JSValue :=
  if startsWithRoot path then setSegments (pathSegments path) data value
  else .error ("Invalid JSONPath: must start with $. Got: " ++ path)

/-! ## Typography and layout enumerations (from `src/types/enums.ts`) -/

/-- Font weight options (CSS numeric weights in the source). -/
inductive FontWeight where
  | THIN | EXTRA_LIGHT | LIGHT | REGULAR | MEDIUM | SEMI_BOLD | BOLD | EXTRA_BOLD | BLACK
deriving DecidableEq

/-- Font style options. -/
inductive FontStyle where
  | NORMAL | ITALIC | OBLIQUE
deriving DecidableEq

/-- Text decoration options. -/
inductive TextDecoration where
  | NONE | UNDERLINE | STRIKETHROUGH
deriving DecidableEq

/-- Horizontal text alignment. -/
inductive HorizontalAlignment where
  | LEFT | CENTER | RIGHT | JUSTIFY
deriving DecidableEq

/-- Vertical text alignment. -/
inductive VerticalAlignment where
  | TOP | MIDDLE | BOTTOM | BASELINE
deriving DecidableEq

/-- Overflow strategies. -/
inductive OverflowBehavior where
  | TRUNCATE | WRAP | SCALE_TO_FIT | OVERFLOW | ERROR
deriving DecidableEq

/-- Checkbox rendering styles. -/
inductive CheckboxStyle where
  | CHECKMARK | X_MARK | FILLED_SQUARE | FILLED_CIRCLE | CUSTOM
deriving DecidableEq

/-- Date format options. -/
inductive DateFormat where
  | MM_DD_YYYY | YYYY_MM_DD | DD_MM_YYYY | MMDDYYYY | MONTH_DAY_YEAR
deriving DecidableEq

/-! ## Formatting rules (from `src/types/interfaces.ts`)

All members of the TypeScript interface are optional; a spread
`{...a, ...b}` is the key-wise overlay in which a key present in `b` wins.
(A key explicitly present with the value `undefined` is identified with an
absent key in this model.)  The `textTransform` string union is modelled as a
plain string. -/

structure FormattingRules where
  fontFamily : Option String := none
  fontSize : Option ℚ := none
  fontWeight : Option FontWeight := none
  fontStyle : Option FontStyle := none
  textDecoration : Option TextDecoration := none
  textColor : Option String := none
  backgroundColor : Option String := none
  horizontalAlign : Option HorizontalAlignment := none
  verticalAlign : Option VerticalAlignment := none
  lineHeight : Option ℚ := none
  letterSpacing : Option ℚ := none
  textTransform : Option String := none
  overflow : Option OverflowBehavior := none
  currencyFormat : Option CurrencyFormat := none
  decimalPlaces : Option ℚ := none
  thousandsSeparator : Option Bool := none
  dateFormat : Option DateFormat := none
  checkboxStyle : Option CheckboxStyle := none
  checkboxCharacter : Option String := none
  showSeparators : Option Bool := none
  maskValue : Option Bool := none
  minFontSize : Option ℚ := none
  maxLines : Option ℚ := none

/-- Key-wise overlay `{...a, ...b}`: a key present in `b` overrides `a`. -/
def FormattingRules.overlay (a b : FormattingRules) : FormattingRules where
  fontFamily := b.fontFamily <|> a.fontFamily
  fontSize := b.fontSize <|> a.fontSize
  fontWeight := b.fontWeight <|> a.fontWeight
  fontStyle := b.fontStyle <|> a.fontStyle
  textDecoration := b.textDecoration <|> a.textDecoration
  textColor := b.textColor <|> a.textColor
  backgroundColor := b.backgroundColor <|> a.backgroundColor
  horizontalAlign := b.horizontalAlign <|> a.horizontalAlign
  verticalAlign := b.verticalAlign <|> a.verticalAlign
  lineHeight := b.lineHeight <|> a.lineHeight
  letterSpacing := b.letterSpacing <|> a.letterSpacing
  textTransform := b.textTransform <|> a.textTransform
  overflow := b.overflow <|> a.overflow
  currencyFormat := b.currencyFormat <|> a.currencyFormat
  decimalPlaces := b.decimalPlaces <|> a.decimalPlaces
  thousandsSeparator := b.thousandsSeparator <|> a.thousandsSeparator
  dateFormat := b.dateFormat <|> a.dateFormat
  checkboxStyle := b.checkboxStyle <|> a.checkboxStyle
  checkboxCharacter := b.checkboxCharacter <|> a.checkboxCharacter
  showSeparators := b.showSeparators <|> a.showSeparators
  maskValue := b.maskValue <|> a.maskValue
  minFontSize := b.minFontSize <|> a.minFontSize
  maxLines := b.maxLines <|> a.maxLines

/-- Global style definition: formatting rules plus per-data-type defaults. -/
structure GlobalStyleDefinition extends FormattingRules where
  typeDefaults : Option (List (FieldDataType × FormattingRules)) := none

/-! ## Blueprint structures (from `src/types/interfaces.ts`)

Only the members read by the embedded utility functions are modelled;
metadata, coordinate-system, positioning and similar purely descriptive
members are omitted because no embedded function inspects them. -/

/-- A single validation rule. -/
structure ValidationRule where
  type : ValidationType
  message : String
  severity : Option ValidationSeverity := none
  length : Option ℚ := none
  min : Option ℚ := none
  max : Option ℚ := none
  pattern : Option String := none
  compareFields : Option (List String) := none
  compareOperator : Option ComparisonOperator := none
  customValidator : Option String := none

/-- A single condition: a source (JSONPath or field id), an operator and a
comparison value (a scalar or an array of scalars in the source's typing). -/
structure Condition where
  source : String
  operator : ComparisonOperator
  value : JSValue

/-- Conditional logic attached to a field. -/
structure ConditionalLogic where
  conditions : List Condition
  operator : LogicalOperator
  action : ConditionalAction
  setValue : Option JSValue := none
  applyStyles : Option FormattingRules := none

/-- Data binding of a field (only `path` is read by the embedded code). -/
structure DataBinding where
  path : String
  transform : Option String := none
  fallback : Option JSValue := none

/-- A field annotation (members read by the embedded code). -/
structure FieldAnnotation where
  id : String
  label : String := ""
  lineNumber : Option String := none
  dataType : FieldDataType
  dataBinding : DataBinding
  formatting : Option FormattingRules := none
  validations : Option (List ValidationRule) := none
  conditionalLogic : Option ConditionalLogic := none
  stylePreset : Option String := none
  groupId : Option String := none

/-- A page: its number and its fields (other members omitted, unused). -/
structure PageDefinition where
  pageNumber : ℚ
  fields : List FieldAnnotation

/-- A form blueprint (members read by the embedded code). -/
structure FormBlueprint where
  id : String := ""
  version : String := ""
  pages : List PageDefinition
  globalStyles : Option GlobalStyleDefinition := none
  stylePresets : Option (List (String × FormattingRules)) := none

/-! ## Field utilities -/

/-- The page loop of `findFieldById`: first page containing the id wins. -/
def findFieldInPages : List PageDefinition → String → Option FieldAnnotation
  | [], _ => none
  | page :: rest, fieldId =>
    match page.fields.find? (fun f => f.id == fieldId) with
    | some field => some field
    | none => findFieldInPages rest fieldId

/-- Finds a field by id across all pages in a blueprint. -/
def findFieldById (blueprint : FormBlueprint) (fieldId : String) : Option FieldAnnotation :=
  findFieldInPages blueprint.pages fieldId

/-- First-match lookup in a named style-preset table. -/
def lookupStyle : List (String × FormattingRules) → String → Option FormattingRules
  | [], _ => none
  | (k, v) :: rest, key => if k = key then some v else lookupStyle rest key

/-- First-match lookup in a type-defaults table. -/
def lookupTypeDefault : List (FieldDataType × FormattingRules) → FieldDataType → Option FormattingRules
  | [], _ => none
  | (k, v) :: rest, key => if k = key then some v else lookupTypeDefault rest key

/-- Step 1 of `getMergedFormatting`: `if (blueprint.globalStyles)` replace
`merged` with a copy of the global styles, `delete`-ing the `typeDefaults`
sub-mapping — here the `toFormattingRules` projection. -/
def applyGlobalStyles (blueprint : FormBlueprint) (merged : FormattingRules) : FormattingRules :=
  match blueprint.globalStyles with
  | some gs => gs.toFormattingRules
  | none => merged

/-- Step 2: overlay the type-defaults entry matching the field's data type,
when `blueprint.globalStyles?.typeDefaults?.[field.dataType]` is present. -/
def applyTypeDefaults (blueprint : FormBlueprint) (field : FieldAnnotation)
    (merged : FormattingRules) : FormattingRules :=
  match blueprint.globalStyles with
  | some gs =>
    match gs.typeDefaults with
    | some td =>
      match lookupTypeDefault td field.dataType with
      | some rules => merged.overlay rules
      | none => merged
    | none => merged
  | none => merged

/-- Step 3: overlay the named style preset.  The source guards with
`field.stylePreset && blueprint.stylePresets?.[field.stylePreset]`, so an
empty (falsy) preset name or an unmatched preset is a no-op. -/
def applyStylePreset (blueprint : FormBlueprint) (field : FieldAnnotation)
    (merged : FormattingRules) : FormattingRules :=
  match field.stylePreset with
  | some name =>
    if name ≠ "" then
      match blueprint.stylePresets with
      | some presets =>
        match lookupStyle presets name with
        | some preset => merged.overlay preset
        | none => merged
      | none => merged
    else merged
  | none => merged

/-- Step 4: overlay the field's own formatting overrides. -/
def applyFieldFormatting (field : FieldAnnotation) (merged : FormattingRules) : FormattingRules :=
  match field.formatting with
  | some f => merged.overlay f
  | none => merged

/-- Merged formatting rules for a field: starting from an empty mapping, the
four overlay steps of the source applied in order. -/
def getMergedFormatting (blueprint : FormBlueprint) (field : FieldAnnotation) : FormattingRules :=
  applyFieldFormatting field
    (applyStylePreset blueprint field
      (applyTypeDefaults blueprint field
        (applyGlobalStyles blueprint {})))

/-! ## JavaScript value coercions -/

/-- Decimal rendering of a rational whose decimal expansion terminates within
30 digits (JavaScript number-to-string for such values; other rationals have
no finite decimal form and fall outside the float model — they are rendered
as a fraction, a case no embedded computation reaches). -/
def numToString (q : ℚ) : String :=
  let sign := if q.num < 0 then "-" else ""
  let n := q.num.natAbs
  match (List.range 31).find? (fun k => (n * 10 ^ k) % q.den == 0) with
  | some 0 => sign ++ natToString (n / q.den)
  | some k =>
    let m := n * 10 ^ k / q.den
    let s := (natToString m).toList
    let s := if s.length < k + 1 then List.replicate (k + 1 - s.length) '0' ++ s else s
    sign ++ String.mk (s.take (s.length - k) ++ '.' :: s.drop (s.length - k))
  | none => sign ++ natToString n ++ "/" ++ natToString q.den

mutual

/-- JavaScript `String(v)` coercion.  Arrays stringify as their elements
joined with commas; plain objects as `"[object Object]"`. -/
def jsToString : JSValue → String
  | .null => "null"
  | .bool b => if b then "true" else "false"
  | .num q => numToString q
  | .str s => s
  | .arr elems _ => jsElemsToString elems
  | .obj _ => "[object Object]"

/-- `Array.prototype.join(",")` over the element list. -/
def jsElemsToString : List (Option JSValue) → String
  | [] => ""
  | [e] => jsElemToString e
  | e :: e2 :: rest => jsElemToString e ++ "," ++ jsElemsToString (e2 :: rest)

/-- One joined element: holes (`undefined`) and `null` render empty. -/
def jsElemToString : Option JSValue → String
  | none => ""
  | some .null => ""
  | some v => jsToString v

end

/-- `String(v)` on a possibly-`undefined` value. -/
def jsToStringU : Option JSValue → String
  | none => "undefined"
  | some v => jsToString v

/-- Leading/trailing whitespace trim (the JavaScript `StringToNumber` strips
further Unicode space characters; ASCII whitespace suffices here). -/
def trimWS (l : List Char) : List Char :=
  let ws := fun (c : Char) => c = ' ' || c = '\t' || c = '\n' || c = '\r'
  ((l.dropWhile ws).reverse.dropWhile ws).reverse

/-- JavaScript `StringToNumber`: trimmed empty string is `0`; otherwise an
optional sign followed by decimal digits with an optional fraction part.
`none` models `NaN`.  (Hex/exponent/`Infinity` forms are outside the
model.) -/
def strToNumber (s : String) : Option ℚ :=
  let t := trimWS s.toList
  if t.isEmpty then some 0
  else
    let signed : ℚ × List Char :=
      match t with
      | '-' :: r => (-1, r)
      | '+' :: r => (1, r)
      | r => (1, r)
    match (signed.2).span Char.isDigit with
    | (ip, rest) =>
      match rest with
      | [] => if ip.isEmpty then none else some (signed.1 * (digitsToNat ip : ℚ))
      | '.' :: fp =>
        if fp.all Char.isDigit ∧ ¬(ip.isEmpty ∧ fp.isEmpty) then
          some (signed.1 * ((digitsToNat ip : ℚ) + (digitsToNat fp : ℚ) / (10 : ℚ) ^ fp.length))
        else none
      | _ => none

/-- JavaScript `Number(v)` coercion; `none` models `NaN`. -/
def toNumber : Option JSValue → Option ℚ
  | none => none
  | some .null => some 0
  | some (.bool b) => some (if b then 1 else 0)
  | some (.num q) => some q
  | some (.str s) => strToNumber s
  | some (.arr elems _) => strToNumber (jsElemsToString elems)
  | some (.obj _) => none

/-! ## Condition evaluator -/

/-- Strict equality on primitives.  Arrays and objects compare by reference
in JavaScript; a condition's comparison value and a resolved record value are
distinct structures (assumed non-aliased), so such comparisons are false. -/
def primEq : JSValue → JSValue → Bool
  | .null, .null => true
  | .bool a, .bool b => a == b
  | .num a, .num b => a == b
  | .str a, .str b => a == b
  | _, _ => false

/-- `sourceValue === targetValue` (the target is never `undefined` by the
source's typing). -/
def strictEq (sourceValue : Option JSValue) (target : JSValue) : Bool :=
  match sourceValue with
  | some v => primEq v target
  | none => false

/-- `SameValueZero`, as used by `Array.prototype.includes`; a hole in the
comparison array reads as `undefined` and matches an `undefined` source. -/
def sameValueZero : Option JSValue → Option JSValue → Bool
  | none, none => true
  | some a, some b => primEq a b
  | _, _ => false

/-- `Number(a) > Number(b)` etc.; any `NaN` operand makes them false. -/
def jsNumGT (a b : Option ℚ) : Bool :=
  match a, b with
  | some x, some y => decide (y < x)
  | _, _ => false

/-- `Number(a) >= Number(b)`. -/
def jsNumGE (a b : Option ℚ) : Bool :=
  match a, b with
  | some x, some y => decide (y ≤ x)
  | _, _ => false

/-- `Number(a) < Number(b)`. -/
def jsNumLT (a b : Option ℚ) : Bool :=
  match a, b with
  | some x, some y => decide (x < y)
  | _, _ => false

/-- `Number(a) <= Number(b)`. -/
def jsNumLE (a b : Option ℚ) : Bool :=
  match a, b with
  | some x, some y => decide (x ≤ y)
  | _, _ => false

/-- Whether `needle` is a prefix of `hay`. -/
def listStartsWith : List Char → List Char → Bool
  | _, [] => true
  | [], _ :: _ => false
  | h :: hs, n :: ns => h == n && listStartsWith hs ns

/-- `String.prototype.includes`: contiguous substring test. -/
def containsSubstring (hay needle : List Char) : Bool :=
  listStartsWith hay needle ||
    match hay with
    | [] => false
    | _ :: t => containsSubstring t needle

/-- `v === null || v === undefined || v === ""`. -/
def isEmptyValue : Option JSValue → Bool
  | none => true
  | some .null => true
  | some (.str "") => true
  | _ => false

/-- The operator switch of `evaluateCondition`.  It is a pure function of the
resolved source value and the comparison value; the trailing wildcard is the
source's `default: return false`, reached by the declared but unhandled
operators `NOT_CONTAINS`, `STARTS_WITH` and `ENDS_WITH`. -/
def compareValues (rx : String → String → Bool) (operator : ComparisonOperator)
    (sourceValue : Option JSValue) (targetValue : JSValue) : Bool :=
  match operator with
  | .EQUALS => strictEq sourceValue targetValue
  | .NOT_EQUALS => !strictEq sourceValue targetValue
  | .GREATER_THAN => jsNumGT (toNumber sourceValue) (toNumber (some targetValue))
  | .GREATER_THAN_OR_EQUALS => jsNumGE (toNumber sourceValue) (toNumber (some targetValue))
  | .LESS_THAN => jsNumLT (toNumber sourceValue) (toNumber (some targetValue))
  | .LESS_THAN_OR_EQUALS => jsNumLE (toNumber sourceValue) (toNumber (some targetValue))
  | .CONTAINS => containsSubstring (jsToStringU sourceValue).toList (jsToString targetValue).toList
  | .IS_EMPTY => isEmptyValue sourceValue
  | .IS_NOT_EMPTY => !isEmptyValue sourceValue
  | .IN =>
    match targetValue with
    | .arr elems _ => elems.any (fun e => sameValueZero e sourceValue)
    | _ => false
  | .NOT_IN =>
    match targetValue with
    | .arr elems _ => !elems.any (fun e => sameValueZero e sourceValue)
    | _ => true
  | .MATCHES_PATTERN =>
    match sourceValue, targetValue with
    | some (.str s), .str p => rx p s
    | _, _ => false
  | _ => false

/-- Source-value resolution of `evaluateCondition`: a `$`-prefixed source is
a JSONPath over the record; otherwise it is a field id whose data-binding
path is resolved; an unknown field id leaves the source value `undefined`. -/
def resolveSourceValue (condition : Condition) (data : JSValue) (blueprint : FormBlueprint) :
    Except String (Option JSValue) :=
  if startsWithRoot condition.source then resolveJSONPath condition.source (some data)
  else
    match findFieldById blueprint condition.source with
    | some field => resolveJSONPath field.dataBinding.path (some data)
    | none => .ok none

/-- Evaluates a single condition (a thrown resolution error propagates). -/
def evaluateCondition (rx : String → String → Bool) (condition : Condition)
    (data : JSValue) (blueprint : FormBlueprint) : Except String Bool :=
  match resolveSourceValue condition data blueprint with
  | .error e => .error e
  | .ok sourceValue => .ok (compareValues rx condition.operator sourceValue condition.value)

/-- The `logic.conditions.map(...)` of `evaluateConditionalLogic`: each
condition is evaluated eagerly, in order, and a thrown error propagates. -/
def evalConditionList (rx : String → String → Bool) :
    List Condition → JSValue → FormBlueprint → Except String (List Bool)
  | [], _, _ => .ok []
  | c :: rest, data, blueprint =>
    match evaluateCondition rx c data blueprint with
    | .error e => .error e
    | .ok r =>
      match evalConditionList rx rest data blueprint with
      | .error e => .error e
      | .ok rs => .ok (r :: rs)

/-- Evaluates conditional logic: every condition is evaluated eagerly into a
boolean list, then combined.  `NOT` negates `results[0]` only — with an empty
condition list `results[0]` is `undefined` and `!undefined` is `true`, which
`headD false` mirrors.  The closed `LogicalOperator` type has no further
constructors, so the source's unreachable `default: return false` has no
counterpart here. -/
def evaluateConditionalLogic (rx : String → String → Bool) (logic : ConditionalLogic)
    (data : JSValue) (blueprint : FormBlueprint) : Except String Bool :=
  match evalConditionList rx logic.conditions data blueprint with
  | .error e => .error e
  | .ok results =>
    match logic.operator with
    | .AND => .ok (results.all (fun r => r))
    | .OR => .ok (results.any (fun r => r))
    | .NOT => .ok (!(results.headD false))
    | .XOR => .ok ((results.filter (fun r => r)).length == 1)

/-! ## Validation engine -/

/-- A single validation error.  `actualValue`/`expectedValue` are `unknown`
in the source; they are modelled as possibly-absent JSON values (numbers for
lengths, strings for patterns and range bounds, exactly as constructed by the
source). -/
structure ValidationError where
  fieldId : String
  lineNumber : Option String := none
  message : String
  severity : ValidationSeverity
  rule : ValidationType
  actualValue : Option JSValue := none
  expectedValue : Option JSValue := none

/-- Result of validating a form. -/
structure ValidationResult where
  isValid : Bool
  errors : List ValidationError
  warnings : List ValidationError

/-- Validates a value against a single rule; `none` means the rule passes or
does not apply.  `severity` defaults to error.  The `CUSTOM`, `CROSS_FIELD`
and `LUHN` kinds have no case in the source's switch and fall through to
`return null`.  The unused `_allData` parameter is kept for signature
fidelity. -/
def validateRule (rx : String → String → Bool) (field : FieldAnnotation) (value : Option JSValue)
    (rule : ValidationRule) (_allData : JSValue) : Option ValidationError :=
  let severity := rule.severity.getD ValidationSeverity.ERROR
  match rule.type with
  | .REQUIRED =>
    match value with
    | none | some .null | some (.str "") =>
      some { fieldId := field.id, lineNumber := field.lineNumber, message := rule.message,
             severity := severity, rule := rule.type, actualValue := value }
    | _ => none
  | .MIN_LENGTH =>
    match value with
    | some (.str s) =>
      if (s.toList.length : ℚ) < rule.length.getD 0 then
        some { fieldId := field.id, lineNumber := field.lineNumber, message := rule.message,
               severity := severity, rule := rule.type,
               actualValue := some (.num (s.toList.length : ℚ)),
               expectedValue := rule.length.map (fun l => JSValue.num l) }
      else none
    | _ => none
  | .MAX_LENGTH =>
    match value with
    | some (.str s) =>
      -- `value.length > (rule.length ?? Infinity)`: an absent bound never fails.
      if (match rule.length with
          | some l => decide ((l : ℚ) < (s.toList.length : ℚ))
          | none => false) then
        some { fieldId := field.id, lineNumber := field.lineNumber, message := rule.message,
               severity := severity, rule := rule.type,
               actualValue := some (.num (s.toList.length : ℚ)),
               expectedValue := rule.length.map (fun l => JSValue.num l) }
      else none
    | _ => none
  | .PATTERN =>
    match value with
    | some (.str s) =>
      -- `rule.pattern &&`: an absent or empty (falsy) pattern is skipped.
      match rule.pattern with
      | some p =>
        if p ≠ "" then
          if !(rx p s) then
            some { fieldId := field.id, lineNumber := field.lineNumber, message := rule.message,
                   severity := severity, rule := rule.type,
                   actualValue := some (.str s), expectedValue := some (.str p) }
          else none
        else none
      | none => none
    | _ => none
  | .RANGE =>
    match value with
    | some (.num q) =>
      let minErr :=
        match rule.min with
        | some mn =>
          if q < mn then
            some { fieldId := field.id, lineNumber := field.lineNumber, message := rule.message,
                   severity := severity, rule := rule.type,
                   actualValue := some (JSValue.num q),
                   expectedValue := some (.str ("min: " ++ numToString mn)) }
          else none
        | none => none
      match minErr with
      | some e => some e
      | none =>
        match rule.max with
        | some mx =>
          if mx < q then
            some { fieldId := field.id, lineNumber := field.lineNumber, message := rule.message,
                   severity := severity, rule := rule.type,
                   actualValue := some (JSValue.num q),
                   expectedValue := some (.str ("max: " ++ numToString mx)) }
          else none
        | none => none
    | _ => none
  | _ => none

/-- Validates a single field's value against its rules, one error per failing
rule, in declaration order.  (`field.validations` absent is falsy and yields
no errors; an empty rule list also yields none.) -/
def validateField (rx : String → String → Bool) (field : FieldAnnotation) (value : Option JSValue)
    (allData : JSValue) : List ValidationError :=
  match field.validations with
  | none => []
  | some rules => rules.filterMap (fun rule => validateRule rx field value rule allData)

/-- The per-field body of `validateForm`'s loop: fields whose `SHOW`
conditional logic evaluates false are skipped; otherwise the bound value is
resolved and each resulting error is bucketed by severity. -/
def validateFormField (rx : String → String → Bool) (blueprint : FormBlueprint) (data : JSValue)
    (acc : List ValidationError × List ValidationError) (field : FieldAnnotation) :
    Except String (List ValidationError × List ValidationError) :=
  let skipResult : Except String Bool :=
    match field.conditionalLogic with
    | some logic =>
      match evaluateConditionalLogic rx logic data blueprint with
      | .error e => .error e
      | .ok shouldShow => .ok (!shouldShow && logic.action == ConditionalAction.SHOW)
    | none => .ok false
  match skipResult with
  | .error e => .error e
  | .ok skip =>
    if skip then .ok acc
    else
      match resolveJSONPath field.dataBinding.path (some data) with
      | .error e => .error e
      | .ok value =>
        .ok ((validateField rx field value data).foldl
          (fun acc2 e =>
            if e.severity = ValidationSeverity.ERROR then (acc2.1 ++ [e], acc2.2)
            else (acc2.1, acc2.2 ++ [e]))
          acc)

/-- The inner field loop of `validateForm` over one page. -/
def validateFieldList (rx : String → String → Bool) (blueprint : FormBlueprint) (data : JSValue) :
    List FieldAnnotation → List ValidationError × List ValidationError →
    Except String (List ValidationError × List ValidationError)
  | [], acc => .ok acc
  | field :: rest, acc =>
    match validateFormField rx blueprint data acc field with
    | .error e => .error e
    | .ok acc2 => validateFieldList rx blueprint data rest acc2

/-- The outer page loop of `validateForm`. -/
def validatePageList (rx : String → String → Bool) (blueprint : FormBlueprint) (data : JSValue) :
    List PageDefinition → List ValidationError × List ValidationError →
    Except String (List ValidationError × List ValidationError)
  | [], acc => .ok acc
  | page :: rest, acc =>
    match validateFieldList rx blueprint data page.fields acc with
    | .error e => .error e
    | .ok acc2 => validatePageList rx blueprint data rest acc2

/-- Validates an entire blueprint against taxpayer data.  `isValid` holds
exactly when no error-severity item was collected. -/
def validateForm (rx : String → String → Bool) (blueprint : FormBlueprint) (data : JSValue) :
    Except String ValidationResult :=
  match validatePageList rx blueprint data blueprint.pages ([], []) with
  | .error e => .error e
  | .ok acc => .ok { isValid := acc.1.isEmpty, errors := acc.1, warnings := acc.2 }

/-! ## Value formatters -/

/-- The integer scaling of `Number.prototype.toFixed(dp)`: the integer
closest to `q·10^dp`, the larger one on ties — `⌊q·10^dp + 1/2⌋`, computed as
a floor division on numerator and denominator. -/
def toFixedInt (q : ℚ) (dp : Nat) : Int :=
  Int.fdiv (2 * q.num * (10 : Int) ^ dp + (q.den : Int)) (2 * (q.den : Int))

/-- Zero-pads a digit string on the left to at least `dp + 1` characters. -/
def padZeros (s : List Char) (dp : Nat) : List Char :=
  if s.length < dp + 1 then List.replicate (dp + 1 - s.length) '0' ++ s else s

/-- Inserts the decimal point `dp` places from the right of a padded digit
string. -/
def insertDot (s : List Char) (dp : Nat) : List Char :=
  (padZeros s dp).take ((padZeros s dp).length - dp) ++
    '.' :: (padZeros s dp).drop ((padZeros s dp).length - dp)

/-- `Number.prototype.toFixed(dp)` for nonnegative rationals: the rounded
scaled integer rendered in decimal, with a decimal point inserted when
`dp > 0`. -/
def jsToFixed (q : ℚ) (dp : Nat) : String :=
  if dp = 0 then natToString (toFixedInt q dp).toNat
  else String.mk (insertDot (natToString (toFixedInt q dp).toNat).toList dp)

/-- `Math.round` for nonnegative rationals: `⌊q + 1/2⌋`. -/
def jsRound (q : ℚ) : Int := Int.fdiv (2 * q.num + (q.den : Int)) (2 * (q.den : Int))

/-- The source regular expression `\B(?=(\d{3})+(?!\d))` in reverse: walking
the reversed digit list, a comma lands after every three characters that are
followed by at least one more. -/
def groupRev : List Char → List Char
  | c1 :: c2 :: c3 :: c4 :: rest => c1 :: c2 :: c3 :: ',' :: groupRev (c4 :: rest)
  | l => l

/-- `parts.join(".")`. -/
def joinDots : List (List Char) → List Char
  | [] => []
  | [p] => p
  | p :: p2 :: rest => p ++ '.' :: joinDots (p2 :: rest)

/-- Adds thousands separators to the integer part of a number string. -/
def addThousandsSeparators (numStr : String) : String :=
  match splitDots numStr.toList with
  | intPart :: rest => String.mk (joinDots ((groupRev intPart.reverse).reverse :: rest))
  | [] => numStr

/-- The `formatted` value computed by `formatCurrency`'s switch, as a
function of the absolute value.  The `default:` branch of the source switch
is unreachable for the closed format type. -/
def currencyCore (absValue : ℚ) (format : CurrencyFormat) (decimalPlaces : Nat)
    (thousandsSeparator : Bool) : String :=
  match format with
  | .USD =>
    "$" ++ (if thousandsSeparator then addThousandsSeparators (jsToFixed absValue decimalPlaces)
            else jsToFixed absValue decimalPlaces)
  | .USD_NO_SYMBOL =>
    if thousandsSeparator then addThousandsSeparators (jsToFixed absValue decimalPlaces)
    else jsToFixed absValue decimalPlaces
  | .USD_WITH_CENTS =>
    if thousandsSeparator then addThousandsSeparators (jsToFixed absValue 2)
    else jsToFixed absValue 2
  | .USD_WHOLE =>
    if thousandsSeparator then addThousandsSeparators (natToString (jsRound absValue).toNat)
    else natToString (jsRound absValue).toNat

/-- Formats a currency value: the digits are rendered from
`Math.abs(value)` (the source's `absValue`), and a negative input wraps the
result in parentheses (`isNegative`); both locals are inlined here. -/
def formatCurrency (value : ℚ) (format : CurrencyFormat) (decimalPlaces : Nat)
    (thousandsSeparator : Bool) : String :=
  if value < 0 then
    "(" ++ currencyCore |value| format decimalPlaces thousandsSeparator ++ ")"
  else currencyCore |value| format decimalPlaces thousandsSeparator

/-- Formats an SSN: non-digits are stripped (`replace(/\D/g, "")`); anything
but exactly nine digits is returned unchanged; otherwise masked, dash
separated 3-2-4, or raw, with masking taking precedence. -/
def formatSSN (ssn : String) (showSeparators : Bool) (mask : Bool) : String :=
  let digits := ssn.toList.filter Char.isDigit
  if digits.length ≠ 9 then ssn
  else if mask then "***-**-" ++ String.mk (digits.drop 5)
  else if showSeparators then
    String.mk (digits.take 3) ++ "-" ++ String.mk ((digits.drop 3).take 2) ++ "-" ++
      String.mk (digits.drop 5)
  else String.mk digits

/-! ## Well-formedness and evaluation-success lemmas -/

/-- All data-binding paths of a blueprint start with the root marker — the
stated invariant of the data model (a path expression always begins with
`$`).  Under it no condition evaluation can throw. -/
def blueprintWF (blueprint : FormBlueprint) : Bool :=
  blueprint.pages.all (fun page => page.fields.all (fun f => startsWithRoot f.dataBinding.path))

theorem findFieldInPages_mem {pages : List PageDefinition} {fieldId : String}
    {f : FieldAnnotation} (h : findFieldInPages pages fieldId = some f) :
    ∃ page ∈ pages, f ∈ page.fields := by
  induction pages with
  | nil => simp [findFieldInPages] at h
  | cons page rest ih =>
    simp only [findFieldInPages] at h
    cases hf : page.fields.find? (fun g => g.id == fieldId) with
    | some g =>
      rw [hf] at h
      obtain rfl : g = f := Option.some.inj h
      exact ⟨page, List.mem_cons_self page rest, List.mem_of_find?_eq_some hf⟩
    | none =>
      rw [hf] at h
      obtain ⟨p, hp, hm⟩ := ih h
      exact ⟨p, List.mem_cons_of_mem _ hp, hm⟩

theorem resolveSourceValue_ok (condition : Condition) (data : JSValue)
    (blueprint : FormBlueprint) (hwf : blueprintWF blueprint = true) :
    ∃ v, resolveSourceValue condition data blueprint = .ok v := by
  unfold resolveSourceValue
  cases hs : startsWithRoot condition.source with
  | true =>
    exact ⟨resolveSegments (pathSegments condition.source) (some data),
      by simp [hs, resolveJSONPath]⟩
  | false =>
    simp only [hs, Bool.false_eq_true, if_false]
    cases hff : findFieldById blueprint condition.source with
    | none => exact ⟨none, rfl⟩
    | some field =>
      have hroot : startsWithRoot field.dataBinding.path = true := by
        obtain ⟨page, hpage, hfld⟩ := findFieldInPages_mem (by simpa [findFieldById] using hff)
        simp only [blueprintWF, List.all_eq_true] at hwf
        exact hwf page hpage field hfld
      exact ⟨resolveSegments (pathSegments field.dataBinding.path) (some data),
        by simp [resolveJSONPath, hroot]⟩

theorem evaluateCondition_ok (rx : String → String → Bool) (condition : Condition)
    (data : JSValue) (blueprint : FormBlueprint) (hwf : blueprintWF blueprint = true) :
    ∃ b, evaluateCondition rx condition data blueprint = .ok b := by
  obtain ⟨v, hv⟩ := resolveSourceValue_ok condition data blueprint hwf
  exact ⟨_, by unfold evaluateCondition; rw [hv]⟩

theorem evalConditionList_ok (rx : String → String → Bool) (conds : List Condition)
    (data : JSValue) (blueprint : FormBlueprint) (hwf : blueprintWF blueprint = true) :
    ∃ results, evalConditionList rx conds data blueprint = .ok results := by
  induction conds with
  | nil => exact ⟨[], rfl⟩
  | cons c rest ih =>
    obtain ⟨b, hb⟩ := evaluateCondition_ok rx c data blueprint hwf
    obtain ⟨rs, hrs⟩ := ih
    exact ⟨b :: rs, by simp only [evalConditionList, hb, hrs]⟩

/-! ## Claim theorems -/

/-- C1 (code defect evidence): the set/get round trip fails when the final
path segment uses index syntax.  `setJSONPath` never applies the array
pattern to the last segment, so `set("$.a[0]", {}, 42)` stores under the
literal property key `"a[0]"`; `resolveJSONPath` then parses `a[0]` as
element 0 of the (missing) array `a` and yields `undefined`, not the written
value. -/
theorem setJSONPath_roundtrip_fails_on_indexed_last_segment :
    setJSONPath "$.a[0]" (.obj []) (.num 42) = .ok (.obj [("a[0]", .num 42)])
    ∧ resolveJSONPath "$.a[0]" (some (.obj [("a[0]", .num 42)])) = .ok none
    ∧ resolveJSONPath "$.a[0]" (some (.obj [("a[0]", .num 42)])) ≠ .ok (some (.num 42)) := by
  refine ⟨rfl, rfl, fun h => ?_⟩
  have he : (Except.ok (none : Option JSValue) : Except String (Option JSValue))
      = .ok (some (.num 42)) :=
    Eq.trans (show resolveJSONPath "$.a[0]" (some (.obj [("a[0]", .num 42)])) = .ok none
      from rfl).symm h
  exact Option.noConfusion (Except.ok.inj he)

/-- C2: `resolveJSONPath` throws exactly when the path does not start with
the `$` root marker; with a rooted path, a missing intermediate property, an
out-of-range index and a non-indexable intermediate value all resolve to
`undefined` (absent) without throwing. -/
theorem resolveJSONPath_error_iff_unrooted :
    (∀ (path : String) (data : Option JSValue),
      (∃ msg, resolveJSONPath path data = .error msg) ↔ startsWithRoot path = false)
    ∧ resolveJSONPath "$.a.b" (some (.obj [])) = .ok none
    ∧ resolveJSONPath "$.a[5]" (some (.obj [("a", .arr [some (.num 1)] [])])) = .ok none
    ∧ resolveJSONPath "$.a.b" (some (.obj [("a", .num 1)])) = .ok none := by
  refine ⟨?_, rfl, rfl, rfl⟩
  intro path data
  unfold resolveJSONPath
  cases hs : startsWithRoot path <;> simp [hs]

theorem resolveJSONPath_error_iff_unrooted_witness :
    ∃ msg, resolveJSONPath "taxpayer.firstName" (some (.obj [])) = .error msg :=
  (resolveJSONPath_error_iff_unrooted.1 "taxpayer.firstName" (some (.obj []))).mpr rfl

/-- C3: with operator `NOT`, `evaluateConditionalLogic` returns the negation
of the first condition's result only: for any non-empty condition list it
equals boolean negation mapped over the first condition's own evaluation,
whatever additional conditions follow (their results cannot influence it).
Binding paths are assumed root-marked — the stated data-model invariant —
so every condition evaluates without throwing. -/
theorem evaluateConditionalLogic_not_first_only (rx : String → String → Bool)
    (c : Condition) (cs : List Condition) (act : ConditionalAction)
    (sv : Option JSValue) (st : Option FormattingRules)
    (data : JSValue) (blueprint : FormBlueprint) (hwf : blueprintWF blueprint = true) :
    evaluateConditionalLogic rx
        { conditions := c :: cs, operator := .NOT, action := act,
          setValue := sv, applyStyles := st } data blueprint
      = (evaluateCondition rx c data blueprint).map (fun r => !r) := by
  obtain ⟨b, hb⟩ := evaluateCondition_ok rx c data blueprint hwf
  obtain ⟨rs, hrs⟩ := evalConditionList_ok rx cs data blueprint hwf
  simp only [evaluateConditionalLogic, evalConditionList, hb, hrs, Except.map, List.headD]

theorem evaluateConditionalLogic_not_first_only_witness :
    evaluateConditionalLogic (fun _ _ => false)
        { conditions := [{ source := "$.x", operator := .IS_EMPTY, value := .str "" },
                         { source := "$.x", operator := .IS_NOT_EMPTY, value := .str "" }],
          operator := .NOT, action := .SHOW, setValue := none, applyStyles := none }
        (.obj []) { pages := [] }
      = (evaluateCondition (fun _ _ => false)
          { source := "$.x", operator := .IS_EMPTY, value := .str "" }
          (.obj []) { pages := [] }).map (fun r => !r) :=
  evaluateConditionalLogic_not_first_only (fun _ _ => false)
    { source := "$.x", operator := .IS_EMPTY, value := .str "" }
    [{ source := "$.x", operator := .IS_NOT_EMPTY, value := .str "" }]
    .SHOW none none (.obj []) { pages := [] } rfl

/-- C8: with operator `XOR`, `evaluateConditionalLogic` returns true exactly
when exactly one condition evaluated true; in particular condition outcomes
`[true, false, false]` give true and `[true, true, false]` give false. -/
theorem evaluateConditionalLogic_xor_exactly_one :
    (∀ (rx : String → String → Bool) (conds : List Condition) (act : ConditionalAction)
        (sv : Option JSValue) (st : Option FormattingRules)
        (data : JSValue) (blueprint : FormBlueprint) (results : List Bool),
      evalConditionList rx conds data blueprint = .ok results →
      evaluateConditionalLogic rx
          { conditions := conds, operator := .XOR, action := act,
            setValue := sv, applyStyles := st } data blueprint
        = .ok (decide ((results.filter (fun r => r)).length = 1)))
    ∧ evaluateConditionalLogic (fun _ _ => false)
        { conditions := [{ source := "$.x", operator := .IS_EMPTY, value := .str "" },
                         { source := "$.x", operator := .IS_NOT_EMPTY, value := .str "" },
                         { source := "$.y", operator := .IS_NOT_EMPTY, value := .str "" }],
          operator := .XOR, action := .SHOW } (.obj []) { pages := [] } = .ok true
    ∧ evaluateConditionalLogic (fun _ _ => false)
        { conditions := [{ source := "$.x", operator := .IS_EMPTY, value := .str "" },
                         { source := "$.y", operator := .IS_EMPTY, value := .str "" },
                         { source := "$.y", operator := .IS_NOT_EMPTY, value := .str "" }],
          operator := .XOR, action := .SHOW } (.obj []) { pages := [] } = .ok false := by
  refine ⟨?_, rfl, rfl⟩
  intro rx conds act sv st data blueprint results h
  have hb : ∀ n : Nat, (n == 1) = decide (n = 1) := by
    intro n
    rw [Bool.eq_iff_iff]
    simp
  simp only [evaluateConditionalLogic, h, hb]

theorem evaluateConditionalLogic_xor_exactly_one_witness :
    evaluateConditionalLogic (fun _ _ => false)
        { conditions := [{ source := "$.x", operator := .IS_EMPTY, value := .str "" }],
          operator := .XOR, action := .SHOW } (.obj []) { pages := [] }
      = .ok (decide (([true].filter (fun r => r)).length = 1)) :=
  evaluateConditionalLogic_xor_exactly_one.1 (fun _ _ => false)
    [{ source := "$.x", operator := .IS_EMPTY, value := .str "" }]
    .SHOW none none (.obj []) { pages := [] } [true] rfl

/-- C10: conditions using the declared but unhandled comparison operators
`NOT_CONTAINS`, `STARTS_WITH` and `ENDS_WITH` — exactly the operators of the
declared type outside the evaluator's handled set — always evaluate to
`false`, regardless of the record, the source and the comparison value
(binding paths root-marked, as per the data-model invariant). -/
theorem evaluateCondition_unhandled_operator_false (rx : String → String → Bool)
    (condition : Condition) (data : JSValue) (blueprint : FormBlueprint)
    (hwf : blueprintWF blueprint = true)
    (hop : condition.operator = .NOT_CONTAINS ∨ condition.operator = .STARTS_WITH ∨
      condition.operator = .ENDS_WITH) :
    evaluateCondition rx condition data blueprint = .ok false := by
  obtain ⟨v, hv⟩ := resolveSourceValue_ok condition data blueprint hwf
  have hc : evaluateCondition rx condition data blueprint
      = .ok (compareValues rx condition.operator v condition.value) := by
    unfold evaluateCondition; rw [hv]
  rw [hc]
  rcases hop with h | h | h <;> rw [h] <;> rfl

theorem evaluateCondition_unhandled_operator_false_witness :
    evaluateCondition (fun _ _ => false)
        { source := "$.name", operator := .STARTS_WITH, value := .str "Jo" }
        (.obj [("name", .str "John")]) { pages := [] } = .ok false :=
  evaluateCondition_unhandled_operator_false (fun _ _ => false)
    { source := "$.name", operator := .STARTS_WITH, value := .str "Jo" }
    (.obj [("name", .str "John")]) { pages := [] } rfl (Or.inr (Or.inl rfl))

/-! ## Formatting tiers (the layering described by the specification) -/

/-- Overlay with a possibly-absent tier: an absent tier is a no-op. -/
def FormattingRules.overlayOpt (a : FormattingRules) : Option FormattingRules → FormattingRules
  | some b => a.overlay b
  | none => a

theorem FormattingRules.overlay_empty (b : FormattingRules) :
    FormattingRules.overlay {} b = b := by
  cases b
  simp [FormattingRules.overlay]

/-- Tier 1: the blueprint's global style, minus the type-defaults
sub-mapping. -/
def globalTier (blueprint : FormBlueprint) : Option FormattingRules :=
  blueprint.globalStyles.map (fun gs => gs.toFormattingRules)

/-- Tier 2: the type-defaults entry matching the field's data type. -/
def typeDefaultTier (blueprint : FormBlueprint) (field : FieldAnnotation) :
    Option FormattingRules :=
  blueprint.globalStyles.bind (fun gs =>
    gs.typeDefaults.bind (fun td => lookupTypeDefault td field.dataType))

/-- Tier 3: the field's non-empty named style preset, resolved in the
blueprint's preset table. -/
def presetTier (blueprint : FormBlueprint) (field : FieldAnnotation) :
    Option FormattingRules :=
  field.stylePreset.bind (fun name =>
    if name ≠ "" then blueprint.stylePresets.bind (fun presets => lookupStyle presets name)
    else none)

/-- Tier 4: the field's own formatting overrides. -/
def fieldTier (field : FieldAnnotation) : Option FormattingRules := field.formatting

theorem applyGlobalStyles_eq (blueprint : FormBlueprint) :
    applyGlobalStyles blueprint {} = ({} : FormattingRules).overlayOpt (globalTier blueprint) := by
  cases hgs : blueprint.globalStyles <;>
    simp [applyGlobalStyles, globalTier, hgs, FormattingRules.overlayOpt,
      FormattingRules.overlay_empty]

theorem applyTypeDefaults_eq (blueprint : FormBlueprint) (field : FieldAnnotation)
    (m : FormattingRules) :
    applyTypeDefaults blueprint field m = m.overlayOpt (typeDefaultTier blueprint field) := by
  cases hgs : blueprint.globalStyles with
  | none => simp [applyTypeDefaults, typeDefaultTier, hgs, FormattingRules.overlayOpt]
  | some gs =>
    cases htd : gs.typeDefaults with
    | none => simp [applyTypeDefaults, typeDefaultTier, hgs, htd, FormattingRules.overlayOpt]
    | some td =>
      cases hlu : lookupTypeDefault td field.dataType <;>
        simp [applyTypeDefaults, typeDefaultTier, hgs, htd, hlu, FormattingRules.overlayOpt]

theorem applyStylePreset_eq (blueprint : FormBlueprint) (field : FieldAnnotation)
    (m : FormattingRules) :
    applyStylePreset blueprint field m = m.overlayOpt (presetTier blueprint field) := by
  cases hsp : field.stylePreset with
  | none => simp [applyStylePreset, presetTier, hsp, FormattingRules.overlayOpt]
  | some name =>
    rcases eq_or_ne name "" with rfl | hne
    · simp [applyStylePreset, presetTier, hsp, FormattingRules.overlayOpt]
    · cases hps : blueprint.stylePresets with
      | none => simp [applyStylePreset, presetTier, hsp, hne, hps, FormattingRules.overlayOpt]
      | some presets =>
        cases hls : lookupStyle presets name <;>
          simp [applyStylePreset, presetTier, hsp, hne, hps, hls, FormattingRules.overlayOpt]

theorem applyFieldFormatting_eq (field : FieldAnnotation) (m : FormattingRules) :
    applyFieldFormatting field m = m.overlayOpt (fieldTier field) := by
  cases hfmt : field.formatting <;>
    simp [applyFieldFormatting, fieldTier, hfmt, FormattingRules.overlayOpt]

/-- C9: the merged formatting rules are the key-wise overlay, in order of
increasing precedence, of the blueprint's global style (with the
type-defaults sub-mapping removed), the type-defaults entry for the field's
data type, the field's named style preset, and the field's own formatting;
an absent tier leaves the result unchanged, and with fontSize 10 / 11 / 12
on the global / type-default / field tiers the merged fontSize is 12. -/
theorem getMergedFormatting_is_tiered_overlay :
    (∀ (blueprint : FormBlueprint) (field : FieldAnnotation),
      getMergedFormatting blueprint field =
        (((({} : FormattingRules).overlayOpt (globalTier blueprint)).overlayOpt
            (typeDefaultTier blueprint field)).overlayOpt
          (presetTier blueprint field)).overlayOpt (fieldTier field))
    ∧ (∀ a : FormattingRules, a.overlayOpt none = a)
    ∧ (getMergedFormatting
        { pages := [],
          globalStyles :=
            some { fontSize := some 10,
                   typeDefaults :=
                     some [(FieldDataType.STRING, { fontSize := some 11 })] } }
        { id := "f", dataType := .STRING, dataBinding := { path := "$.x" },
          formatting := some { fontSize := some 12 } }).fontSize = some 12 := by
  refine ⟨?_, fun a => rfl, rfl⟩
  intro blueprint field
  rw [getMergedFormatting, applyGlobalStyles_eq, applyTypeDefaults_eq, applyStylePreset_eq,
    applyFieldFormatting_eq]

/-- C4: `validateForm` on a blueprint whose single field has no conditional
logic, binds to a path that resolves to absent, and declares exactly one
`required` rule with no explicit severity, yields exactly one error — of rule
kind `required`, at the defaulted error severity — no warnings, and
`isValid = false`. -/
theorem validateForm_single_required_absent (rx : String → String → Bool)
    (field : FieldAnnotation) (data : JSValue) (pageNum : ℚ) (msg : String)
    (bid ver : String) (gs : Option GlobalStyleDefinition)
    (sp : Option (List (String × FormattingRules)))
    (hcl : field.conditionalLogic = none)
    (hval : field.validations = some [{ type := ValidationType.REQUIRED, message := msg }])
    (hres : resolveJSONPath field.dataBinding.path (some data) = .ok none) :
    validateForm rx
        { id := bid, version := ver, pages := [{ pageNumber := pageNum, fields := [field] }],
          globalStyles := gs, stylePresets := sp } data
      = .ok { isValid := false,
              errors := [{ fieldId := field.id, lineNumber := field.lineNumber, message := msg,
                           severity := .ERROR, rule := .REQUIRED, actualValue := none,
                           expectedValue := none }],
              warnings := [] } := by
  simp only [validateForm, validatePageList, validateFieldList, validateFormField,
    hcl, hres, validateField, hval, validateRule]
  rfl

theorem validateForm_single_required_absent_witness :
    validateForm (fun _ _ => false)
        { id := "bp", version := "1",
          pages := [{ pageNumber := 1, fields := [{
            id := "f1", dataType := .STRING, dataBinding := { path := "$.x" },
            validations := some [{ type := ValidationType.REQUIRED,
                                   message := "required!" }] }] }],
          globalStyles := none, stylePresets := none } (.obj [])
      = .ok { isValid := false,
              errors := [{ fieldId := "f1", lineNumber := none, message := "required!",
                           severity := .ERROR, rule := .REQUIRED, actualValue := none,
                           expectedValue := none }],
              warnings := [] } :=
  validateForm_single_required_absent (fun _ _ => false)
    { id := "f1", dataType := .STRING, dataBinding := { path := "$.x" },
      validations := some [{ type := ValidationType.REQUIRED, message := "required!" }] }
    (.obj []) 1 "required!" "bp" "1" none none rfl rfl rfl

/-! ## Wildcard resolution (C5) -/

/-- A segment whose array pattern parses as a `[*]` wildcard. -/
def isWildcardSegment (seg : String) : Bool :=
  match parseArraySegment seg with
  | some (_, none) => true
  | _ => false

/-- A non-empty `\w+` identifier. -/
def isWordName (name : String) : Bool :=
  !name.toList.isEmpty && name.toList.all isWordChar

theorem takeWhile_word_bracket (l1 : List Char) (h : l1.all isWordChar = true) :
    (l1 ++ ['[', '*', ']']).takeWhile isWordChar = l1 := by
  induction l1 with
  | nil => rfl
  | cons a rest ih =>
    rw [List.all_cons, Bool.and_eq_true] at h
    obtain ⟨ha, hrest⟩ := h
    simp [List.takeWhile_cons, ha, ih hrest]

theorem dropWhile_word_bracket (l1 : List Char) (h : l1.all isWordChar = true) :
    (l1 ++ ['[', '*', ']']).dropWhile isWordChar = ['[', '*', ']'] := by
  induction l1 with
  | nil => rfl
  | cons a rest ih =>
    rw [List.all_cons, Bool.and_eq_true] at h
    obtain ⟨ha, hrest⟩ := h
    simp [List.dropWhile_cons, ha, ih hrest]

theorem parseArraySegment_wildcard (name : String) (h : isWordName name = true) :
    parseArraySegment (name ++ "[*]") = some (name, none) := by
  simp only [isWordName, Bool.and_eq_true] at h
  obtain ⟨hne, hall⟩ := h
  have hne3 : name.toList ≠ [] := by
    intro hx
    rw [hx] at hne
    exact absurd hne (by decide)
  have hdata : (name ++ "[*]").toList = name.toList ++ ['[', '*', ']'] := by
    show (name ++ "[*]").data = name.data ++ ['[', '*', ']']
    rw [String.data_append]
  have hspan : ((name ++ "[*]").toList).span isWordChar = (name.toList, ['[', '*', ']']) := by
    rw [hdata, List.span_eq_take_drop, takeWhile_word_bracket _ hall,
      dropWhile_word_bracket _ hall]
  have hdat : name.data ≠ [] := hne3
  rw [parseArraySegment, hspan]
  simp [List.isEmpty_iff, hdat]

theorem resolveSegments_none (segs : List String) : resolveSegments segs none = none := by
  cases segs <;> rfl

/-- Resolution distributes over concatenation of a wildcard-free prefix: the
prefix's walk never returns early, so the remaining segments continue from
its result. -/
theorem resolveSegments_append (a : List String) :
    ∀ (b : List String) (d : Option JSValue), (∀ s ∈ a, isWildcardSegment s = false) →
    resolveSegments (a ++ b) d = resolveSegments b (resolveSegments a d) := by
  induction a with
  | nil => intro b d _; rfl
  | cons s rest ih =>
    intro b d h
    have hs : isWildcardSegment s = false := h s (List.mem_cons_self s rest)
    have hrest : ∀ t ∈ rest, isWildcardSegment t = false :=
      fun t ht => h t (List.mem_cons_of_mem s ht)
    rw [List.cons_append]
    cases d with
    | none => simp only [resolveSegments, resolveSegments_none]
    | some cur =>
      cases hps : parseArraySegment s with
      | none =>
        cases cur <;>
          simp [resolveSegments, hps, isObjectType, resolveSegments_none, ih b _ hrest]
      | some pr =>
        obtain ⟨pn, idx⟩ := pr
        cases idx with
        | none => simp [isWildcardSegment, hps] at hs
        | some i =>
          cases cur with
          | null => simp only [resolveSegments, resolveSegments_none]
          | bool v => simp [resolveSegments, hps, isObjectType, resolveSegments_none]
          | num q => simp [resolveSegments, hps, isObjectType, resolveSegments_none]
          | str v => simp [resolveSegments, hps, isObjectType, resolveSegments_none]
          | obj fields =>
            cases hget : getProp (.obj fields) pn with
            | none => simp [resolveSegments, hps, isObjectType, hget, resolveSegments_none]
            | some v =>
              cases v <;>
                simp [resolveSegments, hps, isObjectType, hget, resolveSegments_none,
                  ih b _ hrest]
          | arr elems props =>
            cases hget : getProp (.arr elems props) pn with
            | none => simp [resolveSegments, hps, isObjectType, hget, resolveSegments_none]
            | some v =>
              cases v <;>
                simp [resolveSegments, hps, isObjectType, hget, resolveSegments_none,
                  ih b _ hrest]

/-- A final `name[*]` segment over an object-typed value whose `name`
property holds an array returns exactly that array. -/
theorem resolveSegments_wildcard_last (name : String) (c : JSValue)
    (elems : List (Option JSValue)) (props : List (String × JSValue))
    (hword : isWordName name = true) (hobj : isObjectType c = true)
    (hget : getProp c name = some (.arr elems props)) :
    resolveSegments [name ++ "[*]"] (some c) = some (.arr elems props) := by
  cases c with
  | null => simp [getProp] at hget
  | bool v => simp [isObjectType] at hobj
  | num q => simp [isObjectType] at hobj
  | str v => simp [isObjectType] at hobj
  | obj fields =>
    simp [resolveSegments, parseArraySegment_wildcard name hword, isObjectType, hget]
  | arr e p =>
    simp [resolveSegments, parseArraySegment_wildcard name hword, isObjectType, hget]

/-- C5: a rooted path whose last segment is a wildcard `name[*]`, and whose
earlier segments are wildcard-free and resolve to an object-typed value whose
`name` property holds an array, resolves to exactly that array — resolution
terminates at the wildcard segment, returning the entire array unchanged. -/
theorem resolveJSONPath_trailing_wildcard_returns_array (path : String) (segs : List String)
    (name : String) (data : Option JSValue) (c : JSValue)
    (elems : List (Option JSValue)) (props : List (String × JSValue))
    (hroot : startsWithRoot path = true)
    (hsegs : pathSegments path = segs ++ [name ++ "[*]"])
    (hnw : ∀ s ∈ segs, isWildcardSegment s = false)
    (hword : isWordName name = true)
    (hc : resolveSegments segs data = some c)
    (hobj : isObjectType c = true)
    (hget : getProp c name = some (.arr elems props)) :
    resolveJSONPath path data = .ok (some (.arr elems props)) := by
  rw [show resolveJSONPath path data = .ok (resolveSegments (pathSegments path) data) by
    simp [resolveJSONPath, hroot]]
  rw [hsegs, resolveSegments_append segs [name ++ "[*]"] data hnw, hc,
    resolveSegments_wildcard_last name c elems props hword hobj hget]

theorem resolveJSONPath_trailing_wildcard_returns_array_witness :
    resolveJSONPath "$.deps.list[*]"
        (some (.obj [("deps", .obj [("list", .arr [some (.num 1), some (.num 2)] [])])]))
      = .ok (some (.arr [some (.num 1), some (.num 2)] [])) :=
  resolveJSONPath_trailing_wildcard_returns_array "$.deps.list[*]" ["deps"] "list"
    (some (.obj [("deps", .obj [("list", .arr [some (.num 1), some (.num 2)] [])])]))
    (.obj [("list", .arr [some (.num 1), some (.num 2)] [])])
    [some (.num 1), some (.num 2)] []
    rfl (by decide) (by decide) rfl rfl rfl rfl

/-- C7: `formatSSN` returns its input unchanged whenever stripping non-digit
characters does not leave exactly nine digits; with exactly nine digits it
returns the masked `***-**-dddd` form when `mask` is set (whatever the
separator flag), the dashed 3-2-4 form when separators are requested without
masking, and the raw nine digits otherwise. -/
theorem formatSSN_cases (ssn : String) (showSeparators mask : Bool) :
    ((ssn.toList.filter Char.isDigit).length ≠ 9 →
      formatSSN ssn showSeparators mask = ssn)
    ∧ ((ssn.toList.filter Char.isDigit).length = 9 →
      formatSSN ssn showSeparators mask =
        (if mask then "***-**-" ++ String.mk ((ssn.toList.filter Char.isDigit).drop 5)
         else if showSeparators then
           String.mk ((ssn.toList.filter Char.isDigit).take 3) ++ "-" ++
             String.mk (((ssn.toList.filter Char.isDigit).drop 3).take 2) ++ "-" ++
             String.mk ((ssn.toList.filter Char.isDigit).drop 5)
         else String.mk (ssn.toList.filter Char.isDigit))) := by
  constructor
  · intro h
    have h2 : (List.filter Char.isDigit ssn.data).length ≠ 9 := h
    simp [formatSSN, h2]
  · intro h
    have h2 : (List.filter Char.isDigit ssn.data).length = 9 := h
    simp [formatSSN, h2]

theorem formatSSN_cases_witness :
    formatSSN "12345678" true false = "12345678"
    ∧ formatSSN "123-45-6789" false true = "***-**-6789"
    ∧ formatSSN "123456789" true false = "123-45-6789" := by
  refine ⟨(formatSSN_cases "12345678" true false).1 (by decide), ?_, ?_⟩
  · exact ((formatSSN_cases "123-45-6789" false true).2 (by decide)).trans (by decide)
  · exact ((formatSSN_cases "123456789" true false).2 (by decide)).trans (by decide)

/-! ## Currency formatting character sets (C6) -/

/-- The characters `currencyCore` can emit: digits, the dollar sign, the
grouping comma and the decimal point. -/
def okCurrencyChar (c : Char) : Bool := c.isDigit || c = '$' || c = ',' || c = '.'

theorem okOfDigitDot (c : Char) (h : (c.isDigit || c = '.') = true) :
    okCurrencyChar c = true := by
  simp only [Bool.or_eq_true] at h ⊢
  simp only [okCurrencyChar, Bool.or_eq_true]
  tauto

theorem digitChar_isDigit (d : Nat) (h : d < 10) : (digitChar d).isDigit = true := by
  interval_cases d <;> decide

theorem natToDigits_digits (fuel : Nat) :
    ∀ (n : Nat) (acc : List Char), (∀ c ∈ acc, c.isDigit = true) →
    ∀ c ∈ natToDigits fuel n acc, c.isDigit = true := by
  induction fuel with
  | zero => intro n acc hacc c hc; exact hacc c hc
  | succ fuel ih =>
    intro n acc hacc c hc
    rw [natToDigits] at hc
    by_cases hn : n < 10
    · rw [if_pos hn] at hc
      rcases List.mem_cons.mp hc with rfl | hmem
      · exact digitChar_isDigit n hn
      · exact hacc c hmem
    · rw [if_neg hn] at hc
      refine ih (n / 10) (digitChar (n % 10) :: acc) ?_ c hc
      intro c2 hc2
      rcases List.mem_cons.mp hc2 with rfl | hmem
      · exact digitChar_isDigit _ (Nat.mod_lt _ (by decide))
      · exact hacc c2 hmem

theorem natToString_digits (n : Nat) : ∀ c ∈ (natToString n).toList, c.isDigit = true :=
  fun c hc => natToDigits_digits (n + 1) n [] (by simp) c hc

theorem padZeros_chars (s : List Char) (dp : Nat) (c : Char) (hc : c ∈ padZeros s dp) :
    c ∈ s ∨ c = '0' := by
  rw [padZeros] at hc
  by_cases hl : s.length < dp + 1
  · rw [if_pos hl] at hc
    rcases List.mem_append.mp hc with hmem | hmem
    · exact Or.inr (List.eq_of_mem_replicate hmem)
    · exact Or.inl hmem
  · rw [if_neg hl] at hc
    exact Or.inl hc

theorem insertDot_chars (s : List Char) (dp : Nat) (c : Char) (hc : c ∈ insertDot s dp) :
    c ∈ s ∨ c = '0' ∨ c = '.' := by
  rw [insertDot] at hc
  rcases List.mem_append.mp hc with hmem | hmem
  · rcases padZeros_chars s dp c (List.mem_of_mem_take hmem) with h | h
    · exact Or.inl h
    · exact Or.inr (Or.inl h)
  · rcases List.mem_cons.mp hmem with rfl | hmem2
    · exact Or.inr (Or.inr rfl)
    · rcases padZeros_chars s dp c (List.mem_of_mem_drop hmem2) with h | h
      · exact Or.inl h
      · exact Or.inr (Or.inl h)

theorem jsToFixed_chars (q : ℚ) (dp : Nat) :
    ∀ c ∈ (jsToFixed q dp).toList, (c.isDigit || c = '.') = true := by
  intro c hc
  rw [jsToFixed] at hc
  by_cases hdp : dp = 0
  · rw [if_pos hdp] at hc
    simp [natToString_digits _ c hc]
  · rw [if_neg hdp] at hc
    have hc2 : c ∈ insertDot (natToString (toFixedInt q dp).toNat).toList dp := hc
    rcases insertDot_chars _ _ c hc2 with h | h | h
    · simp [natToString_digits _ c h]
    · subst h; decide
    · subst h; decide

theorem groupRev_chars_aux (n : Nat) :
    ∀ (l : List Char), l.length ≤ n → ∀ c ∈ groupRev l, c ∈ l ∨ c = ',' := by
  induction n with
  | zero =>
    intro l hl c hc
    have : l = [] := List.eq_nil_of_length_eq_zero (Nat.le_zero.mp hl)
    subst this
    simp [groupRev] at hc
  | succ n ih =>
    intro l hl c hc
    rcases l with _ | ⟨c1, _ | ⟨c2, _ | ⟨c3, _ | ⟨c4, rest⟩⟩⟩⟩
    · simp [groupRev] at hc
    · simp [groupRev] at hc; simp [hc]
    · simp only [groupRev] at hc; simp only [List.mem_cons] at hc ⊢; tauto
    · simp only [groupRev] at hc; simp only [List.mem_cons] at hc ⊢; tauto
    · rw [groupRev] at hc
      simp only [List.mem_cons] at hc
      rcases hc with rfl | rfl | rfl | rfl | hmem
      · left; simp
      · left; simp
      · left; simp
      · right; rfl
      · have hlen : (c4 :: rest).length ≤ n := by
          simp only [List.length_cons] at hl ⊢
          omega
        rcases ih (c4 :: rest) hlen c hmem with hL | hR
        · left; simp only [List.mem_cons] at hL ⊢; tauto
        · right; exact hR

theorem groupRev_chars (l : List Char) (c : Char) (hc : c ∈ groupRev l) : c ∈ l ∨ c = ',' :=
  groupRev_chars_aux l.length l le_rfl c hc

theorem splitDots_chars : ∀ (l : List Char) (p : List Char), p ∈ splitDots l → ∀ c ∈ p, c ∈ l := by
  intro l
  induction l with
  | nil =>
    intro p hp c hc
    simp [splitDots] at hp
    subst hp
    simp at hc
  | cons a rest ih =>
    intro p hp c hc
    rw [splitDots] at hp
    by_cases ha : a = '.'
    · rw [if_pos ha] at hp
      rcases List.mem_cons.mp hp with rfl | hmem
      · simp at hc
      · exact List.mem_cons_of_mem a (ih p hmem c hc)
    · rw [if_neg ha] at hp
      cases hsd : splitDots rest with
      | nil =>
        rw [hsd] at hp
        rcases List.mem_cons.mp hp with rfl | hmem
        · simp at hc
          simp [hc]
        · simp at hmem
      | cons p0 ps =>
        rw [hsd] at hp
        rcases List.mem_cons.mp hp with rfl | hmem
        · rcases List.mem_cons.mp hc with rfl | hc2
          · exact List.mem_cons_self c rest
          · exact List.mem_cons_of_mem a (ih p0 (by rw [hsd]; exact List.mem_cons_self p0 ps) c hc2)
        · exact List.mem_cons_of_mem a (ih p (by rw [hsd]; exact List.mem_cons_of_mem p0 hmem) c hc)

theorem joinDots_chars : ∀ (parts : List (List Char)) (c : Char), c ∈ joinDots parts →
    (∃ p ∈ parts, c ∈ p) ∨ c = '.' := by
  intro parts
  induction parts with
  | nil => intro c hc; simp [joinDots] at hc
  | cons p rest ih =>
    intro c hc
    cases rest with
    | nil =>
      rw [joinDots] at hc
      exact Or.inl ⟨p, List.mem_cons_self p [], hc⟩
    | cons p2 rest2 =>
      rw [joinDots] at hc
      rcases List.mem_append.mp hc with hmem | hmem
      · exact Or.inl ⟨p, List.mem_cons_self p (p2 :: rest2), hmem⟩
      · rcases List.mem_cons.mp hmem with rfl | hmem2
        · exact Or.inr rfl
        · rcases ih c hmem2 with ⟨p3, hp3, hc3⟩ | h
          · exact Or.inl ⟨p3, List.mem_cons_of_mem p hp3, hc3⟩
          · exact Or.inr h

theorem addThousandsSeparators_chars (f : String)
    (hf : ∀ c ∈ f.toList, (c.isDigit || c = '.') = true) :
    ∀ c ∈ (addThousandsSeparators f).toList, okCurrencyChar c = true := by
  intro c hc
  rw [addThousandsSeparators] at hc
  cases hsd : splitDots f.toList with
  | nil => rw [hsd] at hc; exact okOfDigitDot c (hf c hc)
  | cons intPart rest =>
    rw [hsd] at hc
    have hc2 : c ∈ joinDots ((groupRev intPart.reverse).reverse :: rest) := hc
    rcases joinDots_chars _ c hc2 with ⟨p, hp, hcp⟩ | rfl
    · rcases List.mem_cons.mp hp with rfl | hprest
      · have hg : c ∈ groupRev intPart.reverse := List.mem_reverse.mp hcp
        rcases groupRev_chars _ c hg with hmem | rfl
        · have hint : c ∈ intPart := List.mem_reverse.mp hmem
          have hmf : c ∈ f.toList :=
            splitDots_chars f.toList intPart
              (by rw [hsd]; exact List.mem_cons_self intPart rest) c hint
          exact okOfDigitDot c (hf c hmf)
        · decide
      · have hmf : c ∈ f.toList :=
          splitDots_chars f.toList p
            (by rw [hsd]; exact List.mem_cons_of_mem intPart hprest) c hcp
        exact okOfDigitDot c (hf c hmf)
    · decide

theorem sepChars (f : String) (ts : Bool)
    (hf : ∀ c ∈ f.toList, (c.isDigit || c = '.') = true) :
    ∀ c ∈ ((if ts then addThousandsSeparators f else f)).toList, okCurrencyChar c = true := by
  cases ts with
  | false =>
    intro c hc
    rw [if_neg (by decide)] at hc
    exact okOfDigitDot c (hf c hc)
  | true =>
    intro c hc
    rw [if_pos rfl] at hc
    exact addThousandsSeparators_chars f hf c hc

theorem currencyCore_chars (q : ℚ) (format : CurrencyFormat) (dp : Nat) (ts : Bool) :
    ∀ c ∈ (currencyCore q format dp ts).toList, okCurrencyChar c = true := by
  cases format with
  | USD =>
    intro c hc
    rw [currencyCore] at hc
    have hdata :
        ("$" ++ (if ts then addThousandsSeparators (jsToFixed q dp) else jsToFixed q dp)).toList
        = '$' :: ((if ts then addThousandsSeparators (jsToFixed q dp)
                   else jsToFixed q dp)).toList := by
      show String.data _ = _
      rw [String.data_append]
      rfl
    rw [hdata] at hc
    rcases List.mem_cons.mp hc with rfl | hmem
    · decide
    · exact sepChars _ ts (jsToFixed_chars q dp) c hmem
  | USD_NO_SYMBOL =>
    intro c hc
    rw [currencyCore] at hc
    exact sepChars _ ts (jsToFixed_chars q dp) c hc
  | USD_WITH_CENTS =>
    intro c hc
    rw [currencyCore] at hc
    exact sepChars _ ts (jsToFixed_chars q 2) c hc
  | USD_WHOLE =>
    intro c hc
    rw [currencyCore] at hc
    exact sepChars _ ts (fun c2 hc2 => by simp [natToString_digits _ c2 hc2]) c hc

/-- C6: `formatCurrency` wraps its output in parentheses exactly when the
value is negative, and the rendered digits are computed from the absolute
value — the output of a negative value is the parenthesised output of its
absolute value, a non-negative value's output is never of the parenthesised
shape, and no output ever carries a minus sign. -/
theorem formatCurrency_parentheses_iff_negative (value : ℚ) (format : CurrencyFormat)
    (decimalPlaces : Nat) (thousandsSeparator : Bool) :
    (formatCurrency value format decimalPlaces thousandsSeparator
      = (if value < 0
         then "(" ++ formatCurrency |value| format decimalPlaces thousandsSeparator ++ ")"
         else formatCurrency |value| format decimalPlaces thousandsSeparator))
    ∧ ((∃ s, formatCurrency value format decimalPlaces thousandsSeparator = "(" ++ s ++ ")")
        ↔ value < 0)
    ∧ '-' ∉ (formatCurrency value format decimalPlaces thousandsSeparator).toList := by
  have habs : ¬(|value| < 0) := not_lt.mpr (abs_nonneg value)
  refine ⟨?_, ⟨?_, ?_⟩, ?_⟩
  · simp [formatCurrency, abs_abs, habs]
  · rintro ⟨s, hs⟩
    by_contra hv
    simp only [formatCurrency] at hs
    rw [if_neg hv] at hs
    have hpar : '(' ∈ (currencyCore |value| format decimalPlaces thousandsSeparator).toList := by
      rw [hs]
      show '(' ∈ (("(" ++ s ++ ")")).data
      rw [String.data_append, String.data_append]
      exact List.mem_append.mpr (Or.inl (List.mem_append.mpr (Or.inl (by decide))))
    exact absurd (currencyCore_chars _ _ _ _ '(' hpar) (by decide)
  · intro hv
    refine ⟨currencyCore |value| format decimalPlaces thousandsSeparator, ?_⟩
    simp only [formatCurrency]
    rw [if_pos hv]
  · intro hmem
    by_cases hv : value < 0
    · simp only [formatCurrency] at hmem
      rw [if_pos hv] at hmem
      have hmem2 : '-' ∈
          (("(" ++ currencyCore |value| format decimalPlaces thousandsSeparator ++ ")")).data :=
        hmem
      rw [String.data_append, String.data_append] at hmem2
      rcases List.mem_append.mp hmem2 with h1 | h2
      · rcases List.mem_append.mp h1 with h1a | h1b
        · simp at h1a
        · exact absurd (currencyCore_chars _ _ _ _ '-' h1b) (by decide)
      · simp at h2
    · simp only [formatCurrency] at hmem
      rw [if_neg hv] at hmem
      exact absurd (currencyCore_chars _ _ _ _ '-' hmem) (by decide)

theorem formatCurrency_parentheses_iff_negative_witness :
    ('-' ∉ (formatCurrency (-1234) CurrencyFormat.USD 0 true).toList)
    ∧ formatCurrency (-1234) CurrencyFormat.USD 0 true = "($1,234)" :=
  ⟨(formatCurrency_parentheses_iff_negative (-1234) CurrencyFormat.USD 0 true).2.2, rfl⟩
